import Mathlib

/-!
Verification of the transactional outbox/inbox order–payment system
(HW4: `order_service/main.py` and `payment_service/main.py`).

The Python services are shallowly embedded: relational tables become
lists of rows, SQL statements become the corresponding pure list
transformations, one local transaction becomes one pure state-to-state
function, and floats (only added, subtracted and compared here) are
modelled exactly as rationals.
-/

/-! ## Payment service data model (`payment_service/main.py`) -/

/-- A row of the `accounts` table: `user_id` primary key, `balance`. -/
structure Account where
  user_id : Int
  balance : Rat
deriving Repr, DecidableEq

/-- A `payment.processed` payload as built at
`payment_service/main.py:102-106`: order id, status, user id. -/
structure PaymentPayload where
  order_id : Int
  status : String
  user_id : Int
deriving Repr, DecidableEq

/-- A row of the payment service's `outbox` table (the relay-relevant
fields are modelled separately for the relay claims). -/
structure POutboxRow where
  routing_key : String
  payload : PaymentPayload
deriving Repr, DecidableEq

/-- The payment service's store: `accounts`, `inbox` (message ids) and
`outbox`, each a list of rows in insertion order. -/
structure PaymentState where
  accounts : List Account
  inbox : List String
  outbox : List POutboxRow
deriving Repr, DecidableEq

/-- An incoming `order.created` message as consumed at
`payment_service/main.py:70-86`: its dedup id and decoded body. -/
structure OrderCreatedMsg where
  msg_id : String
  order_id : Int
  user_id : Int
  amount : Rat
deriving Repr, DecidableEq

/-- The WHERE clause of the conditional debit
(`Account.user_id == user_id, Account.balance >= amount`). -/
def debitMatch (u : Int) (amount : Rat) (a : Account) : Bool :=
  a.user_id == u && decide (amount ≤ a.balance)

/-- The single conditional UPDATE at `payment_service/main.py:88-92`:
every row matching the WHERE clause has `amount` subtracted from its
balance; the second component is the affected row count (`rowcount`). -/
def applyDebit (u : Int) (amount : Rat) (accounts : List Account) :
    List Account × Nat :=
  ((accounts.map fun a =>
      if debitMatch u amount a then { a with balance := a.balance - amount } else a),
   (accounts.filter (debitMatch u amount)).length)

/-- One message handled by the payment consumer's transaction
(`payment_service/main.py:73-107`): skip if the dedup id is in the
inbox; otherwise debit conditionally, record FINISHED iff a row was
affected, append the inbox marker and the `payment.processed` outbox
row — all in one atomic step. -/
def processPayment (m : OrderCreatedMsg) (s : PaymentState) : PaymentState :=
  if m.msg_id ∈ s.inbox then s
  else
    let r := applyDebit m.user_id m.amount s.accounts
    let status := if r.2 > 0 then "FINISHED" else "CANCELLED"
    { accounts := r.1
      inbox := s.inbox ++ [m.msg_id]
      outbox := s.outbox ++ [⟨"payment.processed", ⟨m.order_id, status, m.user_id⟩⟩] }

/-- Consuming a stream of `order.created` messages in arrival order. -/
def processAll (msgs : List OrderCreatedMsg) (s : PaymentState) : PaymentState :=
  msgs.foldl (fun st m => processPayment m st) s

/-! ## Generic list lemmas for the conditional UPDATE -/

/-- A conditional UPDATE whose WHERE clause matches no row leaves the
table unchanged. -/
theorem map_if_of_no_match {α : Type} (p : α → Bool) (f : α → α) :
    ∀ l : List α, (∀ a ∈ l, ¬ p a = true) →
      l.map (fun a => if p a then f a else a) = l
  | [], _ => rfl
  | x :: xs, h => by
    simp only [List.map_cons, if_neg (h x (List.mem_cons_self x xs))]
    rw [map_if_of_no_match p f xs (fun a ha => h a (List.mem_cons_of_mem x ha))]

/-- Filtering with a stronger predicate keeps at most as many rows. -/
theorem length_filter_mono {α : Type} (p q : α → Bool)
    (hpq : ∀ a, p a = true → q a = true) :
    ∀ l : List α, (l.filter p).length ≤ (l.filter q).length := by
  intro l
  induction l with
  | nil => simp
  | cons x xs ih =>
    by_cases hx : p x = true
    · rw [List.filter_cons_of_pos hx, List.filter_cons_of_pos (hpq x hx)]
      simpa using ih
    · rw [List.filter_cons_of_neg (by simpa using hx)]
      by_cases hq : q x = true
      · rw [List.filter_cons_of_pos hq]
        exact le_trans ih (by simp)
      · rw [List.filter_cons_of_neg (by simpa using hq)]
        exact ih

/-- A conditional UPDATE whose WHERE clause matches at most one row —
the primary-key situation — rewrites the table as a single `set` at the
matching index. -/
theorem map_if_eq_set {α : Type} (p : α → Bool) (f : α → α) :
    ∀ (l : List α) (i : Nat) (h : i < l.length),
      (l.filter p).length ≤ 1 → p (l.get ⟨i, h⟩) = true →
      l.map (fun a => if p a then f a else a) = l.set i (f (l.get ⟨i, h⟩))
  | [], i, h => by simp at h
  | x :: xs, 0, h => by
    intro hfil hp
    simp only [List.get] at hp
    rw [List.filter_cons_of_pos hp] at hfil
    simp only [List.length_cons] at hfil
    have hnil : xs.filter p = [] := List.length_eq_zero.mp (by omega)
    have hxs : ∀ a ∈ xs, ¬ p a = true := by
      intro a ha hpa
      have : a ∈ xs.filter p := List.mem_filter.mpr ⟨ha, hpa⟩
      rw [hnil] at this
      exact (List.not_mem_nil a) this
    simp only [List.map_cons, if_pos hp, List.set]
    rw [map_if_of_no_match p f xs hxs]
    rfl
  | x :: xs, i + 1, h => by
    intro hfil hp
    have hi : i < xs.length := Nat.lt_of_succ_lt_succ h
    have hget : (x :: xs).get ⟨i + 1, h⟩ = xs.get ⟨i, hi⟩ := rfl
    rw [hget] at hp ⊢
    have hmem : xs.get ⟨i, hi⟩ ∈ xs.filter p :=
      List.mem_filter.mpr ⟨List.get_mem xs _ _, hp⟩
    have hxslen : 0 < (xs.filter p).length :=
      List.length_pos.mpr (List.ne_nil_of_mem hmem)
    have hx : ¬ p x = true := by
      intro hpx
      rw [List.filter_cons_of_pos hpx] at hfil
      simp only [List.length_cons] at hfil
      omega
    rw [List.filter_cons_of_neg (by simpa using hx)] at hfil
    simp only [List.map_cons, if_neg hx, List.set]
    rw [map_if_eq_set p f xs i hi hfil hp]

/-- C1: on a fresh `order.created` event the debit is a single
conditional update. If an account for the message's user exists with
balance ≥ amount, exactly that row has its balance decremented by the
amount and the recorded outcome is FINISHED; otherwise (insufficient
balance or no such account) no row changes and the recorded outcome is
CANCELLED. -/
theorem payment_debit_conditional_update (m : OrderCreatedMsg) (s : PaymentState)
    (hnew : m.msg_id ∉ s.inbox)
    (hpk : (s.accounts.filter fun a => a.user_id == m.user_id).length ≤ 1) :
    ((∃ a ∈ s.accounts, a.user_id = m.user_id ∧ m.amount ≤ a.balance) →
      ∃ i, ∃ h : i < s.accounts.length,
        (s.accounts.get ⟨i, h⟩).user_id = m.user_id ∧
        m.amount ≤ (s.accounts.get ⟨i, h⟩).balance ∧
        (processPayment m s).accounts =
          s.accounts.set i
            { s.accounts.get ⟨i, h⟩ with
              balance := (s.accounts.get ⟨i, h⟩).balance - m.amount } ∧
        (processPayment m s).outbox =
          s.outbox ++ [⟨"payment.processed", ⟨m.order_id, "FINISHED", m.user_id⟩⟩]) ∧
    ((∀ a ∈ s.accounts, a.user_id = m.user_id → a.balance < m.amount) →
      (processPayment m s).accounts = s.accounts ∧
      (processPayment m s).outbox =
        s.outbox ++ [⟨"payment.processed", ⟨m.order_id, "CANCELLED", m.user_id⟩⟩]) := by
  have hmono : (s.accounts.filter (debitMatch m.user_id m.amount)).length ≤ 1 := by
    refine le_trans (length_filter_mono _ _ ?_ s.accounts) hpk
    intro a ha
    simp only [debitMatch, Bool.and_eq_true] at ha
    exact ha.1
  constructor
  · rintro ⟨a, hmem, hau, hab⟩
    obtain ⟨⟨i, hi⟩, hget⟩ := List.mem_iff_get.mp hmem
    have hp : debitMatch m.user_id m.amount (s.accounts.get ⟨i, hi⟩) = true := by
      rw [hget]
      simp [debitMatch, hau, hab]
    have hcount : 0 < (s.accounts.filter (debitMatch m.user_id m.amount)).length := by
      refine List.length_pos.mpr (List.ne_nil_of_mem (a := s.accounts.get ⟨i, hi⟩) ?_)
      exact List.mem_filter.mpr ⟨List.get_mem s.accounts i hi, hp⟩
    refine ⟨i, hi, by rw [hget]; exact hau, by rw [hget]; exact hab, ?_, ?_⟩
    · simp only [processPayment, if_neg hnew, applyDebit]
      exact map_if_eq_set (debitMatch m.user_id m.amount)
        (fun a => { a with balance := a.balance - m.amount }) s.accounts i hi hmono hp
    · simp only [processPayment, if_neg hnew, applyDebit, if_pos hcount]
  · intro hall
    have hno : ∀ a ∈ s.accounts, ¬ debitMatch m.user_id m.amount a = true := by
      intro a ha hda
      simp only [debitMatch, Bool.and_eq_true, beq_iff_eq, decide_eq_true_eq] at hda
      exact absurd hda.2 (not_le.mpr (hall a ha hda.1))
    have hnil : s.accounts.filter (debitMatch m.user_id m.amount) = [] := by
      rw [List.filter_eq_nil_iff]
      exact hno
    constructor
    · simp only [processPayment, if_neg hnew, applyDebit]
      exact map_if_of_no_match _ _ s.accounts hno
    · simp only [processPayment, if_neg hnew, applyDebit]
      rw [if_neg (by simp [hnil])]

/-- Witness for C1 at a concrete input: account 1 holds 100, the event
asks for 30, so the debit settles FINISHED. -/
theorem payment_debit_conditional_update_witness :
    (processPayment ⟨"m1", 10, 1, 30⟩ ⟨[⟨1, 100⟩], [], []⟩).outbox =
      [⟨"payment.processed", ⟨10, "FINISHED", 1⟩⟩] := by
  have h := payment_debit_conditional_update ⟨"m1", 10, 1, 30⟩ ⟨[⟨1, 100⟩], [], []⟩
    (by simp) (by norm_num [List.filter])
  obtain ⟨i, hi, _, _, _, hout⟩ := h.1 ⟨⟨1, 100⟩, by simp, rfl, by norm_num⟩
  simpa using hout

/-- Processing a message skips it entirely when its dedup id is already
in the inbox (`payment_service/main.py:77-80`). -/
theorem processPayment_of_mem_inbox (m : OrderCreatedMsg) (t : PaymentState)
    (h : m.msg_id ∈ t.inbox) : processPayment m t = t := by
  simp only [processPayment, if_pos h]

/-- After any processing of a message, its dedup id is in the inbox. -/
theorem mem_inbox_after_processPayment (m : OrderCreatedMsg) (s : PaymentState) :
    m.msg_id ∈ (processPayment m s).inbox := by
  by_cases hin : m.msg_id ∈ s.inbox
  · rw [processPayment_of_mem_inbox m s hin]
    exact hin
  · simp only [processPayment, if_neg hin]
    simp

/-- C7: the debit never drives a balance negative: every account row
that is non-negative before a message is processed is still present and
non-negative after, whether or not the conditional update touched it. -/
theorem debit_preserves_nonneg (m : OrderCreatedMsg) (s : PaymentState)
    (i : Nat) (a : Account) (ha : s.accounts[i]? = some a)
    (hpos : 0 ≤ a.balance) :
    ∃ a', (processPayment m s).accounts[i]? = some a' ∧ 0 ≤ a'.balance := by
  by_cases hin : m.msg_id ∈ s.inbox
  · rw [processPayment_of_mem_inbox m s hin]
    exact ⟨a, ha, hpos⟩
  · simp only [processPayment, if_neg hin, applyDebit]
    rw [List.getElem?_map, ha]
    by_cases hd : debitMatch m.user_id m.amount a = true
    · refine ⟨_, rfl, ?_⟩
      simp only [if_pos hd]
      simp only [debitMatch, Bool.and_eq_true, decide_eq_true_eq] at hd
      simp only [sub_nonneg]
      exact hd.2
    · refine ⟨_, rfl, ?_⟩
      simp only [if_neg hd]
      exact hpos

/-- Witness for C7: account 1 holds 100 and is debited 30. -/
theorem debit_preserves_nonneg_witness :
    ∃ a', (processPayment ⟨"m1", 10, 1, 30⟩
        ⟨[⟨1, 100⟩], [], []⟩).accounts[0]? = some a' ∧ 0 ≤ a'.balance :=
  debit_preserves_nonneg ⟨"m1", 10, 1, 30⟩ ⟨[⟨1, 100⟩], [], []⟩ 0
    ⟨1, 100⟩ (by simp) (by norm_num)

/-- C4: processing the same `order.created` message is idempotent over
its dedup identity: a duplicate delivery is a no-op, any number of
deliveries equals one delivery, and one fresh delivery adds exactly one
inbox row and exactly one `payment.processed` outbox row. -/
theorem payment_consumer_idempotent (m : OrderCreatedMsg) (s : PaymentState) :
    (m.msg_id ∈ s.inbox → processPayment m s = s) ∧
    (∀ n : Nat, Nat.iterate (processPayment m) (n + 1) s = processPayment m s) ∧
    (m.msg_id ∉ s.inbox →
      (processPayment m s).inbox = s.inbox ++ [m.msg_id] ∧
      ∃ st : String, (processPayment m s).outbox =
        s.outbox ++ [⟨"payment.processed", ⟨m.order_id, st, m.user_id⟩⟩]) := by
  refine ⟨processPayment_of_mem_inbox m s, ?_, ?_⟩
  · intro n
    induction n with
    | zero => rfl
    | succ k ih =>
      rw [Function.iterate_succ_apply']
      rw [ih]
      exact processPayment_of_mem_inbox m _ (mem_inbox_after_processPayment m s)
  · intro hnew
    refine ⟨by simp [processPayment, if_neg hnew], ?_⟩
    exact ⟨if (applyDebit m.user_id m.amount s.accounts).2 > 0 then "FINISHED"
        else "CANCELLED",
      by simp [processPayment, if_neg hnew]⟩

/-- Witness for C4: delivering the same message twice equals delivering
it once. -/
theorem payment_consumer_idempotent_witness :
    processPayment ⟨"m1", 10, 1, 30⟩
        (processPayment ⟨"m1", 10, 1, 30⟩ ⟨[⟨1, 100⟩], [], []⟩) =
      processPayment ⟨"m1", 10, 1, 30⟩ ⟨[⟨1, 100⟩], [], []⟩ :=
  (payment_consumer_idempotent ⟨"m1", 10, 1, 30⟩ ⟨[⟨1, 100⟩], [], []⟩).2.1 1

/-! ## C2: arrival-order race resolution for a single account -/

/-- The spec's race-resolution policy, stated in its own words: walking
the attempts in arrival order, an attempt succeeds (FINISHED) exactly
when the running balance still affords it, and only then is the balance
reduced. -/
def greedyStatuses (b : Rat) : List Rat → List String
  | [] => []
  | a :: rest =>
    if a ≤ b then "FINISHED" :: greedyStatuses (b - a) rest
    else "CANCELLED" :: greedyStatuses b rest

/-- The final balance after the arrival-order policy. -/
def greedyFinal (b : Rat) : List Rat → Rat
  | [] => b
  | a :: rest => if a ≤ b then greedyFinal (b - a) rest else greedyFinal b rest

/-- One fresh message against a store holding exactly one account of the
message's user: the conditional update reduces to the affordability
test. -/
theorem processPayment_single (m : OrderCreatedMsg) (u : Int) (b : Rat)
    (inbox0 : List String) (outbox0 : List POutboxRow)
    (hnew : m.msg_id ∉ inbox0) (hu : m.user_id = u) :
    processPayment m ⟨[⟨u, b⟩], inbox0, outbox0⟩ =
      if m.amount ≤ b then
        ⟨[⟨u, b - m.amount⟩], inbox0 ++ [m.msg_id],
          outbox0 ++ [⟨"payment.processed", ⟨m.order_id, "FINISHED", m.user_id⟩⟩]⟩
      else
        ⟨[⟨u, b⟩], inbox0 ++ [m.msg_id],
          outbox0 ++ [⟨"payment.processed", ⟨m.order_id, "CANCELLED", m.user_id⟩⟩]⟩ := by
  have hmatch : debitMatch m.user_id m.amount ⟨u, b⟩ = decide (m.amount ≤ b) := by
    simp [debitMatch, hu]
  by_cases ha : m.amount ≤ b
  · rw [if_pos ha]
    simp [processPayment, if_neg hnew, applyDebit, List.filter, hmatch, ha]
  · rw [if_neg ha]
    simp [processPayment, if_neg hnew, applyDebit, List.filter, hmatch, ha]

/-- C2: debit attempts against a single account settle exactly by
affordability in arrival order: the recorded outcomes are the greedy
arrival-order outcomes and the final balance is the greedy final
balance. -/
theorem debit_race_arrival_order (u : Int) (b : Rat) (msgs : List OrderCreatedMsg)
    (inbox0 : List String) (outbox0 : List POutboxRow)
    (huser : ∀ m ∈ msgs, m.user_id = u)
    (hfresh : ∀ m ∈ msgs, m.msg_id ∉ inbox0)
    (hdist : msgs.Pairwise fun m1 m2 => m1.msg_id ≠ m2.msg_id) :
    (processAll msgs ⟨[⟨u, b⟩], inbox0, outbox0⟩).accounts
        = [⟨u, greedyFinal b (msgs.map (fun m => m.amount))⟩] ∧
    (processAll msgs ⟨[⟨u, b⟩], inbox0, outbox0⟩).outbox.map (fun r => r.payload.status)
        = outbox0.map (fun r => r.payload.status)
          ++ greedyStatuses b (msgs.map (fun m => m.amount)) := by
  induction msgs generalizing b inbox0 outbox0 with
  | nil => simp [processAll, greedyFinal, greedyStatuses]
  | cons m rest ih =>
    have hm_u : m.user_id = u := huser m (List.mem_cons_self m rest)
    have hm_new : m.msg_id ∉ inbox0 := hfresh m (List.mem_cons_self m rest)
    have hrest_user : ∀ m' ∈ rest, m'.user_id = u :=
      fun m' hm' => huser m' (List.mem_cons_of_mem m hm')
    have hhead : ∀ m' ∈ rest, m.msg_id ≠ m'.msg_id := (List.pairwise_cons.mp hdist).1
    have hrest_fresh : ∀ m' ∈ rest, m'.msg_id ∉ inbox0 ++ [m.msg_id] := by
      intro m' hm'
      simp only [List.mem_append, List.mem_singleton]
      rintro (h1 | h2)
      · exact hfresh m' (List.mem_cons_of_mem m hm') h1
      · exact hhead m' hm' h2.symm
    have hrest_dist : rest.Pairwise fun m1 m2 => m1.msg_id ≠ m2.msg_id :=
      (List.pairwise_cons.mp hdist).2
    have hstep := processPayment_single m u b inbox0 outbox0 hm_new hm_u
    by_cases ha : m.amount ≤ b
    · rw [if_pos ha] at hstep
      obtain ⟨ih1, ih2⟩ := ih (b - m.amount) (inbox0 ++ [m.msg_id])
        (outbox0 ++ [⟨"payment.processed", ⟨m.order_id, "FINISHED", m.user_id⟩⟩])
        hrest_user hrest_fresh hrest_dist
      constructor
      · simp only [processAll, List.foldl_cons] at ih1 ⊢
        rw [hstep, ih1]
        simp [greedyFinal, ha]
      · simp only [processAll, List.foldl_cons] at ih2 ⊢
        rw [hstep, ih2]
        simp [greedyStatuses, ha, List.map_append]
    · rw [if_neg ha] at hstep
      obtain ⟨ih1, ih2⟩ := ih b (inbox0 ++ [m.msg_id])
        (outbox0 ++ [⟨"payment.processed", ⟨m.order_id, "CANCELLED", m.user_id⟩⟩])
        hrest_user hrest_fresh hrest_dist
      constructor
      · simp only [processAll, List.foldl_cons] at ih1 ⊢
        rw [hstep, ih1]
        simp [greedyFinal, ha]
      · simp only [processAll, List.foldl_cons] at ih2 ⊢
        rw [hstep, ih2]
        simp [greedyStatuses, ha, List.map_append]

/-- Witness for C2: the spec's stress scenario — balance 100, five
debit attempts of 100 each — settles exactly one FINISHED, four
CANCELLED, final balance 0. -/
theorem debit_race_arrival_order_witness :
    (processAll
        [⟨"r0", 1, 1, 100⟩, ⟨"r1", 2, 1, 100⟩, ⟨"r2", 3, 1, 100⟩,
         ⟨"r3", 4, 1, 100⟩, ⟨"r4", 5, 1, 100⟩]
        ⟨[⟨1, 100⟩], [], []⟩).accounts = [⟨1, 0⟩] ∧
    (processAll
        [⟨"r0", 1, 1, 100⟩, ⟨"r1", 2, 1, 100⟩, ⟨"r2", 3, 1, 100⟩,
         ⟨"r3", 4, 1, 100⟩, ⟨"r4", 5, 1, 100⟩]
        ⟨[⟨1, 100⟩], [], []⟩).outbox.map (fun r => r.payload.status)
      = ["FINISHED", "CANCELLED", "CANCELLED", "CANCELLED", "CANCELLED"] := by
  have h := debit_race_arrival_order 1 100
    [⟨"r0", 1, 1, 100⟩, ⟨"r1", 2, 1, 100⟩, ⟨"r2", 3, 1, 100⟩,
     ⟨"r3", 4, 1, 100⟩, ⟨"r4", 5, 1, 100⟩] [] []
    (by intro m hm; fin_cases hm <;> rfl)
    (by intro m hm; simp)
    (by simp [List.pairwise_cons])
  obtain ⟨h1, h2⟩ := h
  refine ⟨?_, ?_⟩
  · rw [h1]
    norm_num [greedyFinal]
  · rw [h2]
    norm_num [greedyStatuses]

/-! ## Order service data model (`order_service/main.py`) -/

/-- The request body of the order-creation call (`OrderReq`,
`order_service/main.py:164-167`): pydantic places no constraint on
`amount`. -/
structure OrderReq where
  user_id : Int
  description : String
  amount : Rat
deriving Repr, DecidableEq

/-- A row of the `orders` table. -/
structure OrderRow where
  id : Int
  user_id : Int
  description : String
  amount : Rat
  status : String
deriving Repr, DecidableEq

/-- The `order.created` payload built at `order_service/main.py:180`. -/
structure OrderCreatedPayload where
  order_id : Int
  user_id : Int
  amount : Rat
deriving Repr, DecidableEq

/-- A row of the order service's `outbox` table. -/
structure OOutboxRow where
  id : Int
  routing_key : String
  payload : OrderCreatedPayload
  processed : Bool
deriving Repr, DecidableEq

/-- The order service's store, with the autoincrement counters of the
two tables made explicit. -/
structure OrderState where
  orders : List OrderRow
  outbox : List OOutboxRow
  nextOrderId : Int
  nextOutboxId : Int
deriving Repr, DecidableEq

/-- The order-creation transaction (`order_service/main.py:170-183`):
inside one `session.begin()` block it inserts the Order row with status
NEW, flushes to obtain its id, inserts the Outbox row with routing key
`order.created` and payload {order id, user id, amount}, and returns
{id, status NEW}. `commitOk` models whether this single local
transaction commits: when it cannot, the whole block rolls back and
nothing is inserted. -/
def createOrder (req : OrderReq) (s : OrderState) (commitOk : Bool) :
    OrderState × Option (Int × String) :=
  if commitOk then
    ({ orders := s.orders ++
        [⟨s.nextOrderId, req.user_id, req.description, req.amount, "NEW"⟩]
       outbox := s.outbox ++
        [⟨s.nextOutboxId, "order.created",
          ⟨s.nextOrderId, req.user_id, req.amount⟩, false⟩]
       nextOrderId := s.nextOrderId + 1
       nextOutboxId := s.nextOutboxId + 1 }, some (s.nextOrderId, "NEW"))
  else (s, none)

/-- C3: a successful order creation returns the fresh id with status
NEW and inserts the Order row and the `order.created` Outbox row in one
atomic step; a failed commit leaves the store untouched; and in every
case the Order row with the fresh id and the matching Outbox row exist
together or not at all. -/
theorem create_order_atomic (req : OrderReq) (s : OrderState) (commitOk : Bool)
    (horders : ∀ o ∈ s.orders, o.id ≠ s.nextOrderId)
    (houtbox : ∀ x ∈ s.outbox, x.payload.order_id ≠ s.nextOrderId) :
    (commitOk = true →
      (createOrder req s commitOk).2 = some (s.nextOrderId, "NEW") ∧
      (createOrder req s commitOk).1.orders =
        s.orders ++ [⟨s.nextOrderId, req.user_id, req.description, req.amount, "NEW"⟩] ∧
      (createOrder req s commitOk).1.outbox =
        s.outbox ++ [⟨s.nextOutboxId, "order.created",
          ⟨s.nextOrderId, req.user_id, req.amount⟩, false⟩]) ∧
    (commitOk = false →
      (createOrder req s commitOk).1 = s ∧ (createOrder req s commitOk).2 = none) ∧
    ((∃ o ∈ (createOrder req s commitOk).1.orders,
        o.id = s.nextOrderId ∧ o.status = "NEW") ↔
      (∃ x ∈ (createOrder req s commitOk).1.outbox,
        x.routing_key = "order.created" ∧ x.payload.order_id = s.nextOrderId ∧
        x.payload.user_id = req.user_id ∧ x.payload.amount = req.amount)) := by
  cases commitOk with
  | true =>
    refine ⟨fun _ => ⟨rfl, rfl, rfl⟩, fun h => by simp at h, ?_⟩
    constructor
    · intro _
      exact ⟨⟨s.nextOutboxId, "order.created",
          ⟨s.nextOrderId, req.user_id, req.amount⟩, false⟩,
        by simp [createOrder], rfl, rfl, rfl, rfl⟩
    · intro _
      exact ⟨⟨s.nextOrderId, req.user_id, req.description, req.amount, "NEW"⟩,
        by simp [createOrder], rfl, rfl⟩
  | false =>
    refine ⟨fun h => by simp at h, fun _ => ⟨rfl, rfl⟩, ?_⟩
    simp only [createOrder, if_neg (by simp : ¬ (false = true))]
    constructor
    · rintro ⟨o, ho, hid, -⟩
      exact absurd hid (horders o ho)
    · rintro ⟨x, hx, -, hid, -⟩
      exact absurd hid (houtbox x hx)

/-- Witness for C3: creating an order in an empty store commits and the
paired rows both appear. -/
theorem create_order_atomic_witness :
    (createOrder ⟨7, "d", 42⟩ ⟨[], [], 1, 1⟩ true).2 = some (1, "NEW") ∧
    (createOrder ⟨7, "d", 42⟩ ⟨[], [], 1, 1⟩ true).1.orders =
      [⟨1, 7, "d", 42, "NEW"⟩] ∧
    (createOrder ⟨7, "d", 42⟩ ⟨[], [], 1, 1⟩ true).1.outbox =
      [⟨1, "order.created", ⟨1, 7, 42⟩, false⟩] := by
  have h := (create_order_atomic ⟨7, "d", 42⟩ ⟨[], [], 1, 1⟩ true
    (by simp) (by simp)).1 rfl
  simpa using h

/-- C8 counterexample: `OrderReq` carries no positivity constraint, so
a request with amount −5 is accepted: the call returns {id, NEW} and an
Order row with a non-positive amount is created. -/
theorem create_order_accepts_nonpositive_amount :
    (createOrder ⟨7, "d", -5⟩ ⟨[], [], 1, 1⟩ true).2 = some (1, "NEW") ∧
    ∃ o ∈ (createOrder ⟨7, "d", -5⟩ ⟨[], [], 1, 1⟩ true).1.orders,
      o.amount = -5 ∧ o.amount ≤ 0 := by
  refine ⟨rfl, ⟨1, 7, "d", -5, "NEW"⟩, by simp [createOrder], rfl, by norm_num⟩

/-- C8 amended: the order-creation call validates nothing about the
amount — for every request, positive or not, the committed call returns
{fresh id, status NEW} and inserts the Order row carrying exactly the
requested amount. -/
theorem create_order_no_amount_validation (req : OrderReq) (s : OrderState) :
    (createOrder req s true).2 = some (s.nextOrderId, "NEW") ∧
    ⟨s.nextOrderId, req.user_id, req.description, req.amount, "NEW"⟩ ∈
      (createOrder req s true).1.orders := by
  exact ⟨rfl, by simp [createOrder]⟩

/-! ## Order Status Consumer (`order_service/main.py:119-148`) -/

/-- A `payment.processed` event as decoded at
`order_service/main.py:136-139`. -/
structure PaymentResultMsg where
  order_id : Int
  status : String
  user_id : Int
deriving Repr, DecidableEq

/-- The status write at `order_service/main.py:145`:
`update(Order).where(Order.id == order_id).values(status=status)` —
unconditional in the current status. -/
def updateOrderStatus (m : PaymentResultMsg) (orders : List OrderRow) :
    List OrderRow :=
  orders.map fun o => if o.id == m.order_id then { o with status := m.status } else o

/-- Consuming a stream of `payment.processed` events in arrival order. -/
def applyResults (msgs : List PaymentResultMsg) (orders : List OrderRow) :
    List OrderRow :=
  msgs.foldl (fun os m => updateOrderStatus m os) orders

/-- C5 counterexample: the status write does not check the current
status, so an event carrying a different status overwrites a terminal
one: order 1 is FINISHED and a CANCELLED event for it flips it. -/
theorem order_status_overwritten :
    (updateOrderStatus ⟨1, "CANCELLED", 7⟩ [⟨1, 7, "d", 5, "FINISHED"⟩]).map
      (fun o => o.status) = ["CANCELLED"] := by
  norm_num [updateOrderStatus]

/-- C5 amended: under redelivery — every event for a given order id
carries that order's unique settled status — a terminal status never
changes: if all rows with the order's id already hold status `st` and
all events for that id carry `st`, the rows still hold `st` after any
further event sequence; and repeating an identical update is a no-op. -/
theorem order_status_monotone_redelivery (oid : Int) (st : String)
    (msgs : List PaymentResultMsg)
    (hmsgs : ∀ m ∈ msgs, m.order_id = oid → m.status = st)
    (orders : List OrderRow)
    (hinit : ∀ o ∈ orders, o.id = oid → o.status = st) :
    (∀ o ∈ applyResults msgs orders, o.id = oid → o.status = st) ∧
    (∀ (m : PaymentResultMsg) (os : List OrderRow),
      updateOrderStatus m (updateOrderStatus m os) = updateOrderStatus m os) := by
  constructor
  · induction msgs generalizing orders with
    | nil => exact hinit
    | cons m rest ih =>
      simp only [applyResults, List.foldl_cons]
      refine ih (fun m' hm' => hmsgs m' (List.mem_cons_of_mem m hm')) _ ?_
      intro o ho hid
      simp only [updateOrderStatus, List.mem_map] at ho
      obtain ⟨o0, ho0, rfl⟩ := ho
      by_cases hc : (o0.id == m.order_id) = true
      · simp only [if_pos hc] at hid ⊢
        exact hmsgs m (List.mem_cons_self m rest) (by
          rw [← hid]
          exact (beq_iff_eq.mp hc).symm)
      · simp only [if_neg hc] at hid ⊢
        exact hinit o0 ho0 hid
  · intro m os
    simp only [updateOrderStatus, List.map_map]
    refine List.map_congr_left ?_
    intro o _
    simp only [Function.comp]
    by_cases hc : (o.id == m.order_id) = true
    · simp [hc]
    · simp [hc]

/-- Witness for C5 amended: a FINISHED order stays FINISHED under two
redeliveries of its own settled event. -/
theorem order_status_monotone_redelivery_witness :
    (∀ o ∈ applyResults [⟨1, "FINISHED", 7⟩, ⟨1, "FINISHED", 7⟩]
        [⟨1, 7, "d", 5, "FINISHED"⟩], o.id = 1 → o.status = "FINISHED") ∧
    (∀ (m : PaymentResultMsg) (os : List OrderRow),
      updateOrderStatus m (updateOrderStatus m os) = updateOrderStatus m os) :=
  order_status_monotone_redelivery 1 "FINISHED"
    [⟨1, "FINISHED", 7⟩, ⟨1, "FINISHED", 7⟩]
    (by intro m hm _; fin_cases hm <;> rfl)
    [⟨1, 7, "d", 5, "FINISHED"⟩]
    (by intro o ho _; fin_cases ho; rfl)

/-! ## Outbox Relay (`order_service/main.py:72-111`,
`payment_service/main.py:114-144`) -/

/-- An outbox row as the relay sees it: id, routing key, serialized
payload, processed flag. Both services' relays run this same loop. -/
structure RelayRow where
  id : Int
  routing_key : String
  payload : String
  processed : Bool
deriving Repr, DecidableEq

/-- A message as handed to `exchange.publish`: body, broker message id,
routing key. -/
structure BrokerMsg where
  body : String
  message_id : String
  routing_key : String
deriving Repr, DecidableEq

/-- The batch selection
`select(Outbox).where(processed == False).limit(10)`. -/
def selectBatch (rows : List RelayRow) : List RelayRow :=
  (rows.filter fun r => r.processed == false).take 10

/-- The message built for a row: body is the row's payload, the broker
message id is the row's own id (`message_id=str(msg.id)`), the routing
key is the row's. -/
def rowMsg (r : RelayRow) : BrokerMsg :=
  ⟨r.payload, toString r.id, r.routing_key⟩

/-- The publish loop over one selected batch. `pubOk` models the
broker: whether a given publish call succeeds. A failed publish raises,
so the loop stops; the messages published before the failure did reach
the broker. The Bool records whether the whole batch published. -/
def publishBatch (pubOk : BrokerMsg → Bool) : List RelayRow → List BrokerMsg × Bool
  | [] => ([], true)
  | r :: rest =>
    if pubOk (rowMsg r) then
      ((rowMsg r) :: (publishBatch pubOk rest).1, (publishBatch pubOk rest).2)
    else ([], false)

/-- One relay iteration: select the batch inside a transaction, publish
each row, set its processed flag, and commit; an exception anywhere
rolls the transaction back, leaving every row as it was. Returns the
rows after the iteration and the messages that reached the broker. -/
def relayBatch (pubOk : BrokerMsg → Bool) (rows : List RelayRow) :
    List RelayRow × List BrokerMsg :=
  if (publishBatch pubOk (selectBatch rows)).2 then
    ((rows.map fun r =>
        if ((selectBatch rows).map (fun b => b.id)).contains r.id then
          { r with processed := true } else r),
     (publishBatch pubOk (selectBatch rows)).1)
  else (rows, (publishBatch pubOk (selectBatch rows)).1)

/-- Every message a relay iteration publishes is the message of a
selected row: its body, broker id and routing key come from that row. -/
theorem publishBatch_mem (pubOk : BrokerMsg → Bool) :
    ∀ l : List RelayRow, ∀ msg ∈ (publishBatch pubOk l).1,
      ∃ r ∈ l, msg = rowMsg r
  | [], msg, h => by simp [publishBatch] at h
  | r :: rest, msg, h => by
    by_cases hp : pubOk (rowMsg r) = true
    · simp only [publishBatch, if_pos hp, List.mem_cons] at h
      rcases h with rfl | h
      · exact ⟨r, List.mem_cons_self r rest, rfl⟩
      · obtain ⟨r', hr', hmsg⟩ := publishBatch_mem pubOk rest msg h
        exact ⟨r', List.mem_cons_of_mem r hr', hmsg⟩
    · simp [publishBatch, if_neg hp] at h

/-- When the whole batch publishes, the published messages are exactly
the batch rows' messages, in order. -/
theorem publishBatch_success (pubOk : BrokerMsg → Bool) :
    ∀ l : List RelayRow, (publishBatch pubOk l).2 = true →
      (publishBatch pubOk l).1 = l.map rowMsg
  | [], _ => rfl
  | r :: rest, h => by
    by_cases hp : pubOk (rowMsg r) = true
    · simp only [publishBatch, if_pos hp] at h ⊢
      rw [publishBatch_success pubOk rest h, List.map_cons]
    · simp [publishBatch, if_neg hp] at h

/-- C6: in one relay iteration, every published message carries a
selected row's payload, its row id as the broker message id, and its
routing key; if the whole batch publishes, the published messages are
exactly the batch in order and each batch row is marked processed in
the committed state; if any publish fails, the state rolls back
unchanged — and the batch rows are unprocessed, so the next poll
selects them again. -/
theorem outbox_relay_batch (pubOk : BrokerMsg → Bool) (rows : List RelayRow) :
    (∀ msg ∈ (relayBatch pubOk rows).2, ∃ r ∈ selectBatch rows, msg = rowMsg r) ∧
    ((publishBatch pubOk (selectBatch rows)).2 = true →
      (relayBatch pubOk rows).2 = (selectBatch rows).map rowMsg ∧
      ∀ r ∈ selectBatch rows, { r with processed := true } ∈ (relayBatch pubOk rows).1) ∧
    ((publishBatch pubOk (selectBatch rows)).2 = false →
      (relayBatch pubOk rows).1 = rows) ∧
    (∀ r ∈ selectBatch rows, r.processed = false) := by
  have hsel : ∀ r ∈ selectBatch rows, r ∈ rows := by
    intro r hr
    exact List.mem_of_mem_filter (List.mem_of_mem_take hr)
  have hproc : ∀ r ∈ selectBatch rows, r.processed = false := by
    intro r hr
    have := List.of_mem_filter (List.mem_of_mem_take hr)
    simpa using this
  refine ⟨?_, ?_, ?_, hproc⟩
  · intro msg hmsg
    refine publishBatch_mem pubOk (selectBatch rows) msg ?_
    by_cases hb : (publishBatch pubOk (selectBatch rows)).2 = true
    · simpa [relayBatch, if_pos hb] using hmsg
    · simpa [relayBatch, if_neg hb] using hmsg
  · intro hb
    refine ⟨?_, ?_⟩
    · simp only [relayBatch, if_pos hb]
      exact publishBatch_success pubOk (selectBatch rows) hb
    · intro r hr
      simp only [relayBatch, if_pos hb]
      refine List.mem_map.mpr ⟨r, hsel r hr, ?_⟩
      rw [if_pos]
      exact List.elem_eq_true_of_mem (List.mem_map.mpr ⟨r, hr, rfl⟩)
  · intro hb
    simp [relayBatch, hb]

/-- Witness for C6: one unprocessed row, broker accepting everything:
the row's message is published with its id, and the committed state has
the row marked processed. -/
theorem outbox_relay_batch_witness :
    (relayBatch (fun _ => true) [⟨1, "order.created", "p1", false⟩]).2
      = [rowMsg ⟨1, "order.created", "p1", false⟩] ∧
    ⟨1, "order.created", "p1", true⟩ ∈
      (relayBatch (fun _ => true) [⟨1, "order.created", "p1", false⟩]).1 := by
  have h := outbox_relay_batch (fun _ => true) [⟨1, "order.created", "p1", false⟩]
  have hb : (publishBatch (fun _ => true)
      (selectBatch [⟨1, "order.created", "p1", false⟩])).2 = true := by
    simp [selectBatch, publishBatch, List.filter]
  obtain ⟨hpubs, hmark⟩ := h.2.1 hb
  refine ⟨?_, ?_⟩
  · rw [hpubs]
    simp [selectBatch, List.filter]
  · exact hmark ⟨1, "order.created", "p1", false⟩ (by simp [selectBatch, List.filter])

/-! ## Notification Hub (`order_service/main.py:47-68`) -/

/-- A live connection, identified for the model by `cid`; `sendOk`
models whether `send_text` on it succeeds or raises. -/
structure Conn where
  cid : Int
  sendOk : Bool
deriving Repr, DecidableEq

/-- The hub's `active_connections` mapping, user id to connections in
registration order. -/
def lookupConns (mgr : List (Int × List Conn)) (u : Int) : Option (List Conn) :=
  match mgr.find? (fun p => p.1 == u) with
  | some p => some p.2
  | none => none

/-- The delivery loop body of `send_to_user`
(`order_service/main.py:62-65`): iterate the user's connections and
`await send_text` on each. There is no exception handling, so a failing
send aborts the loop: the connections before it received the message,
the failing one and all later ones did not. Returns who received the
message and whether the loop ran to completion. -/
def deliverLoop : List Conn → List Int × Bool
  | [] => ([], true)
  | c :: rest =>
    if c.sendOk then (c.cid :: (deliverLoop rest).1, (deliverLoop rest).2)
    else ([], false)

/-- `send_to_user`: look the user up in the mapping (absent user means
no delivery at all) and run the delivery loop over exactly that user's
connections. -/
def sendToUser (mgr : List (Int × List Conn)) (u : Int) : List Int × Bool :=
  match lookupConns mgr u with
  | some cs => deliverLoop cs
  | none => ([], true)

/-- C9 counterexample: user 1 has two live connections and the first
send fails, so the second — registered for user 1 and whose send would
succeed — receives nothing: delivery to the remaining connections is
blocked. -/
theorem send_failure_blocks_delivery :
    (sendToUser [(1, [⟨100, false⟩, ⟨200, true⟩])] 1).1 = [] := by
  norm_num [sendToUser, lookupConns, List.find?, deliverLoop]

/-- C9 amended: delivery reaches exactly the longest prefix of the
user's connections whose sends succeed — a send failure stops delivery
to the rest — every delivered connection is one registered for this
user, and the loop completes exactly when every send succeeds. -/
theorem send_to_user_prefix_delivery (mgr : List (Int × List Conn)) (u : Int)
    (cs : List Conn) (hcs : lookupConns mgr u = some cs) :
    (sendToUser mgr u).1 = (cs.takeWhile (fun c => c.sendOk)).map (fun c => c.cid) ∧
    ((sendToUser mgr u).2 = true ↔ ∀ c ∈ cs, c.sendOk = true) ∧
    (∀ i ∈ (sendToUser mgr u).1, ∃ c ∈ cs, c.cid = i) := by
  have hloop : ∀ l : List Conn,
      (deliverLoop l).1 = (l.takeWhile (fun c => c.sendOk)).map (fun c => c.cid) ∧
      ((deliverLoop l).2 = true ↔ ∀ c ∈ l, c.sendOk = true) := by
    intro l
    induction l with
    | nil => simp [deliverLoop]
    | cons c rest ih =>
      by_cases hc : c.sendOk = true
      · simp only [deliverLoop, if_pos hc, List.takeWhile_cons, hc, List.map_cons]
        constructor
        · rw [ih.1]
          simp
        · simp only [List.mem_cons]
          constructor
          · intro h2 c' hc'
            rcases hc' with rfl | hc'
            · exact hc
            · exact (ih.2.mp h2) c' hc'
          · intro hall
            exact ih.2.mpr (fun c' hc' => hall c' (Or.inr hc'))
      · simp only [deliverLoop, if_neg hc, List.takeWhile_cons]
        simp [hc]
  have hsend : sendToUser mgr u = deliverLoop cs := by
    simp [sendToUser, hcs]
  rw [hsend]
  refine ⟨(hloop cs).1, (hloop cs).2, ?_⟩
  intro i hi
  rw [(hloop cs).1] at hi
  obtain ⟨c, hc, rfl⟩ := List.mem_map.mp hi
  exact ⟨c, (List.takeWhile_sublist _).mem hc, rfl⟩

/-- Witness for C9 amended: one failing then one healthy connection for
user 1 — only the (empty) prefix before the failure is delivered, and a
connection of user 2 is never delivered to. -/
theorem send_to_user_prefix_delivery_witness :
    (sendToUser [(1, [⟨100, false⟩, ⟨200, true⟩]), (2, [⟨300, true⟩])] 1).1
      = [] ∧
    ((sendToUser [(1, [⟨100, false⟩, ⟨200, true⟩]), (2, [⟨300, true⟩])] 1).2 = true
      ↔ ∀ c ∈ [(⟨100, false⟩ : Conn), ⟨200, true⟩], c.sendOk = true) ∧
    (∀ i ∈ (sendToUser [(1, [⟨100, false⟩, ⟨200, true⟩]), (2, [⟨300, true⟩])] 1).1,
      ∃ c ∈ [(⟨100, false⟩ : Conn), ⟨200, true⟩], c.cid = i) := by
  have h := send_to_user_prefix_delivery
    [(1, [⟨100, false⟩, ⟨200, true⟩]), (2, [⟨300, true⟩])] 1
    [⟨100, false⟩, ⟨200, true⟩] (by norm_num [lookupConns, List.find?])
  refine ⟨?_, h.2.1, h.2.2⟩
  rw [h.1]
  norm_num [List.takeWhile_cons]

/-! ## Top-up and balance query (`payment_service/main.py:172-188`) -/

/-- The top-up transaction (`payment_service/main.py:172-180`):
`update(Account).where(user_id == req.user_id).values(balance = balance
+ amount)` with no existence check, then `return {"status": "ok"}`
unconditionally. -/
def topup (u : Int) (amount : Rat) (accounts : List Account) :
    List Account × String :=
  ((accounts.map fun a =>
      if a.user_id == u then { a with balance := a.balance + amount } else a),
   "ok")

/-- The balance query (`payment_service/main.py:183-188`): fetch by
primary key; `none` models the 404 "Not found" branch. -/
def getBalance (accounts : List Account) (u : Int) : Option Rat :=
  match accounts.find? (fun a => a.user_id == u) with
  | some a => some a.balance
  | none => none

/-- C10: a top-up whose user id matches no account still answers
"ok" and changes nothing, so this endpoint cannot distinguish a missing
account from a successful top-up; only the balance query surfaces
not-found. -/
theorem topup_missing_account_ok (u : Int) (amount : Rat)
    (accounts : List Account) (hmiss : ∀ a ∈ accounts, a.user_id ≠ u) :
    (topup u amount accounts).2 = "ok" ∧
    (topup u amount accounts).1 = accounts ∧
    getBalance accounts u = none := by
  refine ⟨rfl, ?_, ?_⟩
  · simp only [topup]
    have : ∀ a ∈ accounts, ¬ (a.user_id == u) = true := by
      intro a ha
      simpa using hmiss a ha
    exact map_if_of_no_match _ _ accounts this
  · simp only [getBalance]
    have : accounts.find? (fun a => a.user_id == u) = none := by
      rw [List.find?_eq_none]
      intro a ha
      simpa using hmiss a ha
    rw [this]

/-- Witness for C10: topping up user 2 when only user 1 has an
account. -/
theorem topup_missing_account_ok_witness :
    (topup 2 50 [⟨1, 100⟩]).2 = "ok" ∧
    (topup 2 50 [⟨1, 100⟩]).1 = [⟨1, 100⟩] ∧
    getBalance [⟨1, 100⟩] 2 = none :=
  topup_missing_account_ok 2 50 [⟨1, 100⟩] (by norm_num)
